import Mathlib

/-!
Verification of the linuxviewer render-graph, pipeline-factory and
descriptor range-merge subsystems.

The definitions below are shallow embeddings of the C++ sources:

* `src/src/vulkan/rendergraph/RenderPass.cxx` (attachment nodes, load/store
  op queries, layout queries, `stores_called`, `preceding_render_pass_stores`,
  `get_node`, the `operator[]` attachment modifiers);
* `src/src/vulkan/pipeline/PipelineFactory.cxx` (the `initialized` and
  `generate` states of `multiplex_impl`);
* `src/src/vulkan/descriptor/CombinedImageSamplerUpdater.cxx` (the
  descriptor-update branch of `multiplex_impl`).

C++ exceptions (`THROW_ALERT`) are modelled by returning the state at the
point of the throw together with an `Alert` value; in every operation
modelled here the source throws before mutating, so the state returned with
an alert is the input state.  Debug assertions (`ASSERT(false)`) are
modelled as a distinguished `logicError` outcome.
-/

namespace LinuxViewer

/-- vk::AttachmentLoadOp (the values used by `RenderPass::get_load_op`). -/
inductive AttachmentLoadOp where
  | eLoad
  | eClear
  | eDontCare
  | eNoneEXT
deriving DecidableEq

/-- vk::ImageLayout (the values used by the layout queries in RenderPass.cxx). -/
inductive ImageLayout where
  | eUndefined
  | eColorAttachmentOptimal
  | eDepthStencilReadOnlyOptimal
  | eDepthStencilAttachmentOptimal
  | eDepthReadOnlyOptimal
  | eDepthAttachmentOptimal
  | eStencilReadOnlyOptimal
  | eStencilAttachmentOptimal
  | ePresentSrcKHR
  | eGeneral
deriving DecidableEq

/-- Result of a layout query: either a layout, or the `ASSERT(false)` branch
of the source ("couldn't figure out the layout"), modelled as `logicError`
(debug-build semantics; a release build would return `eGeneral`). -/
inductive LayoutOutcome where
  | layout (l : ImageLayout)
  | logicError
deriving DecidableEq

/-- The predicate queries of `ImageViewKind` used by
`RenderPass::get_optimal_layout`.  The class itself is declared in a header
that is not part of the sources; the queries are modelled as independent
boolean fields, which is the most general reading. -/
structure ImageViewKind where
  is_color : Bool
  is_depth_and_or_stencil : Bool
  is_depth_stencil : Bool
  is_depth : Bool
  is_stencil : Bool
deriving DecidableEq

/-- `vulkan::rendergraph::Attachment` (Attachment.h): an immutable value with
a unique id and an `ImageViewKind`. -/
structure Attachment where
  id : Nat
  image_view_kind : ImageViewKind
deriving DecidableEq

/-- `vulkan::rendergraph::AttachmentNode`: per-(RenderPass, Attachment)
mutable state.  The class is declared in a header not present in the
sources; its fields are modelled after their uses in RenderPass.cxx
(`id()`, `attachment()`, the boolean flags and their setters, index
assignment in `get_node`).  A newly constructed node has all flags unset. -/
structure AttachmentNode where
  attachment : Attachment
  index : Nat
  is_load : Bool := false
  is_clear : Bool := false
  is_store : Bool := false
  is_preserve : Bool := false
  is_source : Bool := false
  is_sink : Bool := false
  is_present : Bool := false
deriving DecidableEq

/-- The alerts thrown by RenderPass.cxx (`THROW_ALERT` messages). -/
inductive Alert where
  | removeAfterAdd
  | removeTwice
  | addAfterRemove
  | alreadySpecifiedAsInput
  | duplicateRenderPass
deriving DecidableEq

/-- The state of a `vulkan::rendergraph::RenderPass` that the modelled
operations read and write: `m_known_attachments`,
`m_remove_or_dontcare_attachments`, `m_next_index` and `m_stores_called`
(the latter modelled as the list of ids of the render passes inserted so
far; `std::set` membership is what the source uses). -/
structure RenderPass where
  known_attachments : List AttachmentNode
  remove_or_dontcare_attachments : List Attachment
  next_index : Nat
  stores_called_ids : List Nat
deriving DecidableEq

/-- A RenderPass as constructed: everything empty, next index 0. -/
def initial_render_pass : RenderPass :=
  ⟨[], [], 0, []⟩

/-- `find_by_ID(m_known_attachments, attachment)`: the first known node whose
attachment id matches. -/
def find_by_ID : List AttachmentNode → Nat → Option AttachmentNode
  | [], _ => none
  | n :: t, id => if n.attachment.id == id then some n else find_by_ID t id

/-- Membership test of an attachment id in `m_remove_or_dontcare_attachments`
(`find_by_ID` on that vector in the source). -/
def removed_contains (l : List Attachment) (id : Nat) : Bool :=
  l.any (fun a => a.id == id)

/-- Erase the first element of `m_remove_or_dontcare_attachments` with the
given id (`m_remove_or_dontcare_attachments.erase(iter)` in the source). -/
def erase_first_by_id : List Attachment → Nat → List Attachment
  | [], _ => []
  | a :: t, id => if a.id == id then t else a :: erase_first_by_id t id

/-- Apply `f` to the known node(s) with the given attachment id; this models
mutation through the reference returned by `get_node`. -/
def set_node_flags (rp : RenderPass) (id : Nat) (f : AttachmentNode → AttachmentNode) : RenderPass :=
  { rp with known_attachments :=
      rp.known_attachments.map (fun n => if n.attachment.id == id then f n else n) }

/-- `RenderPass::get_node` (RenderPass.cxx:78-97): fetch the known node, or
throw if the attachment was explicitly removed, or construct a new node with
index `m_next_index++` and append it to `m_known_attachments`.
On error the state is unchanged (the source throws before mutating). -/
def get_node (rp : RenderPass) (a : Attachment) : Except Alert (RenderPass × AttachmentNode) :=
  match find_by_ID rp.known_attachments a.id with
  | some n => .ok (rp, n)
  | none =>
    if removed_contains rp.remove_or_dontcare_attachments a.id then
      .error .addAfterRemove
    else
      let n : AttachmentNode := { attachment := a, index := rp.next_index }
      .ok ({ rp with known_attachments := rp.known_attachments ++ [n],
                     next_index := rp.next_index + 1 }, n)

/-- `RenderPass::operator[](Attachment::OpLoad)` (RenderPass.cxx:34-40):
`get_node(...).set_load()`. -/
def op_load (rp : RenderPass) (a : Attachment) : RenderPass × Option Alert :=
  match get_node rp a with
  | .error al => (rp, some al)
  | .ok (rp', _) => (set_node_flags rp' a.id (fun n => { n with is_load := true }), none)

/-- `RenderPass::operator[](Attachment::OpClear)` (RenderPass.cxx:42-48):
`get_node(...).set_clear()`. -/
def op_clear (rp : RenderPass) (a : Attachment) : RenderPass × Option Alert :=
  match get_node rp a with
  | .error al => (rp, some al)
  | .ok (rp', _) => (set_node_flags rp' a.id (fun n => { n with is_clear := true }), none)

/-- `RenderPass::operator[](Attachment::OpRemoveOrDontCare)`
(RenderPass.cxx:10-32).  The two checks are compiled under `CWDEBUG`; they
are part of the modelled (debug-build) semantics.  On success the attachment
is appended to `m_remove_or_dontcare_attachments`. -/
def op_remove (rp : RenderPass) (a : Attachment) : RenderPass × Option Alert :=
  if (find_by_ID rp.known_attachments a.id).isSome then
    (rp, some .removeAfterAdd)
  else if removed_contains rp.remove_or_dontcare_attachments a.id then
    (rp, some .removeTwice)
  else
    ({ rp with remove_or_dontcare_attachments := rp.remove_or_dontcare_attachments ++ [a] }, none)

/-- `RenderPass::store_attachment(Attachment const&)` (RenderPass.cxx:62-69):
fetch-or-create the node; throw if it is already marked clear; otherwise set
the store flag. -/
def store_attachment (rp : RenderPass) (a : Attachment) : RenderPass × Option Alert :=
  match get_node rp a with
  | .error al => (rp, some al)
  | .ok (rp', n) =>
    if n.is_clear then (rp', some .alreadySpecifiedAsInput)
    else (set_node_flags rp' a.id (fun m => { m with is_store := true }), none)

/-- `RenderPass::store_attachment(Attachment::OpClear)` (RenderPass.cxx:71-76):
fetch-or-create the node; set store and clear. -/
def store_attachment_clear (rp : RenderPass) (a : Attachment) : RenderPass × Option Alert :=
  match get_node rp a with
  | .error al => (rp, some al)
  | .ok (rp', _) =>
    (set_node_flags rp' a.id (fun m => { m with is_store := true, is_clear := true }), none)

/-- `RenderPass::do_load_dont_cares` (RenderPass.cxx:50-60): swap out the
remove-or-dontcare list, then `get_node` each of its attachments (adding
them as known nodes with no flags). -/
def do_load_dont_cares (rp : RenderPass) : RenderPass :=
  let dontcare := rp.remove_or_dontcare_attachments
  let rp0 := { rp with remove_or_dontcare_attachments := ([] : List Attachment) }
  dontcare.foldl
    (fun s a => match get_node s a with
      | .ok (s', _) => s'
      | .error _ => s) rp0

/-- `RenderPass::preceding_render_pass_stores` (RenderPass.cxx:131-146): if
the attachment is in the remove-or-dontcare list, erase it there and return;
otherwise fetch-or-create its node and set the load flag. -/
def preceding_render_pass_stores (rp : RenderPass) (a : Attachment) : RenderPass × Option Alert :=
  if removed_contains rp.remove_or_dontcare_attachments a.id then
    ({ rp with remove_or_dontcare_attachments :=
         erase_first_by_id rp.remove_or_dontcare_attachments a.id }, none)
  else
    match get_node rp a with
    | .error al => (rp, some al)
    | .ok (rp', _) => (set_node_flags rp' a.id (fun n => { n with is_load := true }), none)

/-- `RenderPass::stores_called` (RenderPass.cxx:291-296): insert the render
pass into `m_stores_called`; if it was already present, throw (the set is
unchanged, as `std::set::insert` of a duplicate does not modify the set). -/
def stores_called (rp : RenderPass) (render_pass_id : Nat) : RenderPass × Option Alert :=
  if render_pass_id ∈ rp.stores_called_ids then
    (rp, some .duplicateRenderPass)
  else
    ({ rp with stores_called_ids := rp.stores_called_ids ++ [render_pass_id] }, none)

/-- Fold `stores_called` over a list of render passes; the boolean is true
iff no insertion failed. -/
def stores_called_all (rp : RenderPass) : List Nat → RenderPass × Bool
  | [] => (rp, true)
  | x :: t =>
    match stores_called rp x with
    | (rp', none) => stores_called_all rp' t
    | (rp', some _) => ((stores_called_all rp' t).1, false)

/-- `RenderPass::get_load_op` (RenderPass.cxx:148-158): `eNoneEXT` for an
unknown attachment, else load before clear before dont-care. -/
def get_load_op (rp : RenderPass) (id : Nat) : AttachmentLoadOp :=
  match find_by_ID rp.known_attachments id with
  | none => .eNoneEXT
  | some n =>
    if n.is_load then .eLoad
    else if n.is_clear then .eClear
    else .eDontCare

/-- `RenderPass::get_optimal_layout` (RenderPass.cxx:184-204). -/
def get_optimal_layout (n : AttachmentNode) (separate_depth_stencil_layouts : Bool) : LayoutOutcome :=
  let k := n.attachment.image_view_kind
  if k.is_color then .layout .eColorAttachmentOptimal
  else if k.is_depth_and_or_stencil then
    if k.is_depth_stencil || !separate_depth_stencil_layouts then
      .layout (if n.is_preserve then .eDepthStencilReadOnlyOptimal else .eDepthStencilAttachmentOptimal)
    else if k.is_depth then
      .layout (if n.is_preserve then .eDepthReadOnlyOptimal else .eDepthAttachmentOptimal)
    else if k.is_stencil then
      .layout (if n.is_preserve then .eStencilReadOnlyOptimal else .eStencilAttachmentOptimal)
    else .logicError
  else .logicError

/-- `RenderPass::get_final_layout` (RenderPass.cxx:221-233): `eUndefined`
for an unknown attachment; the optimal layout for a node that is not a
storing sink; `ePresentSrcKHR` for a present-marked storing sink; and the
`ASSERT(false)` branch for a non-present storing sink. -/
def get_final_layout (rp : RenderPass) (id : Nat) (separate_depth_stencil_layouts : Bool) : LayoutOutcome :=
  match find_by_ID rp.known_attachments id with
  | none => .layout .eUndefined
  | some n =>
    if !n.is_sink || !n.is_store then get_optimal_layout n separate_depth_stencil_layouts
    else if n.is_present then .layout .ePresentSrcKHR
    else .logicError

/-- The operations that mutate a RenderPass, for stating reachability
invariants (claim C10). -/
inductive RPOp where
  | load (a : Attachment)
  | clear (a : Attachment)
  | plainStore (a : Attachment)
  | clearStore (a : Attachment)
  | remove (a : Attachment)
  | dontCares
  | precStores (a : Attachment)
  | storesCalled (i : Nat)

/-- Apply one operation, keeping the state component (exceptions unwind to
the caller with the state at the throw point). -/
def apply_op (rp : RenderPass) : RPOp → RenderPass
  | .load a => (op_load rp a).1
  | .clear a => (op_clear rp a).1
  | .plainStore a => (store_attachment rp a).1
  | .clearStore a => (store_attachment_clear rp a).1
  | .remove a => (op_remove rp a).1
  | .dontCares => do_load_dont_cares rp
  | .precStores a => (preceding_render_pass_stores rp a).1
  | .storesCalled i => (stores_called rp i).1

/-- Run a list of operations from a freshly constructed RenderPass. -/
def run_ops (ops : List RPOp) : RenderPass :=
  ops.foldl apply_op initial_render_pass

/-- The index invariant of claim C10: the known attachments of a pass carry
indices `0, 1, ..., n-1` in order of first reference, and `m_next_index` is
the number of known attachments. -/
def rp_invariant (rp : RenderPass) : Prop :=
  rp.known_attachments.map AttachmentNode.index = List.range rp.known_attachments.length ∧
  rp.next_index = rp.known_attachments.length

/-!
## PipelineFactory (PipelineFactory.cxx, states `initialized` and `generate`)

`vulkan::pipeline::CharacteristicRange` (`ibegin()`, `iend()`, `update`,
`fill`) and `utils::MultiLoop` (`m_range_counters`) are declared outside the
available sources; they are modelled from the spec below.  A characteristic
range is represented as a pair `(ibegin, size)` with `iend = ibegin + size`.
-/

/-- Modelled from the spec: `CharacteristicRange::update(pipeline_index, v)`
folds this characteristic's contribution into the dense pipeline index —
"each characteristic maps its own local iteration counter, scaled by a
caller-supplied stride/radix contributed by `update`, into a unique slot in
the flattened index space".  With ranges folded left to right (leftmost
characteristic outermost, hence most significant) this is the mixed-radix
accumulation `pi * size + (v - ibegin)`. -/
def characteristic_update (r : Nat × Nat) (pipeline_index v : Nat) : Nat :=
  pipeline_index * r.2 + (v - r.1)

/-- `n1 * n2 * ... * nk`, the number of combinations of the ranges. -/
def prod_sizes (rs : List (Nat × Nat)) : Nat :=
  rs.foldr (fun r acc => r.2 * acc) 1

/-- The `PipelineFactory_initialized` state (PipelineFactory.cxx:184-190):
`max_pipeline_index` starts at 0 and every characteristic folds in its last
position `iend() - 1` via `update`. -/
def max_pipeline_index (rs : List (Nat × Nat)) : Nat :=
  rs.foldl (fun pi r => characteristic_update r pi (r.1 + r.2 - 1)) 0

/-- The inner-loop pipeline index (PipelineFactory.cxx:213-222):
`pipeline_index` starts at 0 and characteristic `i` folds in the current
loop counter `m_range_counters[i]` via `update`. -/
def pipeline_index_of (rs : List (Nat × Nat)) (c : List Nat) : Nat :=
  (rs.zip c).foldl (fun pi rc => characteristic_update rc.1 pi rc.2) 0

/-- Modelled from the spec: the initial MultiLoop counters — "one counter
per characteristic, each iterating over that characteristic's own
`[begin, end)` range" — every counter at its `ibegin`. -/
def ml_begins (rs : List (Nat × Nat)) : List Nat :=
  rs.map Prod.fst

/-- Modelled from the spec: one `advance()` of the persisted nested-loop
counters ("an explicit struct holding a vector of current indices (one per
axis) plus bounds per axis").  The innermost (rightmost) counter is
incremented; on reaching its `iend` it resets to `ibegin` and the carry
propagates outward; `none` means the whole nested loop is finished. -/
def ml_advance : List (Nat × Nat) → List Nat → Option (List Nat)
  | [], _ => none
  | _ :: _, [] => none
  | r :: rest, c :: cs =>
    match ml_advance rest cs with
    | some cs' => some (c :: cs')
    | none => if c + 1 < r.1 + r.2 then some ((c + 1) :: ml_begins rest) else none

/-- The `PipelineFactory_generate` state run to completion, resumed once per
scheduling turn.  Each entry performs one innermost-loop iteration — calling
`fill`/`update` on every characteristic at the current counters (the emitted
pair is the computed `pipeline::Index` together with those counters, which
determine the created pipeline) — then yields, persisting only the advanced
counters (PipelineFactory.cxx:200-294); `fuel` bounds the number of turns. -/
def generate_run (rs : List (Nat × Nat)) : List Nat → Nat → List (Nat × List Nat)
  | _, 0 => []
  | c, fuel + 1 =>
    (pipeline_index_of rs c, c) ::
      match ml_advance rs c with
      | none => []
      | some c' => generate_run rs c' fuel

/-- The uninterrupted nested loop over the characteristic ranges, written as
the plain lexicographic cross product (leftmost range outermost): the
reference against which the yielding generator is compared (claim C2). -/
def cross_product : List (Nat × Nat) → List (List Nat)
  | [] => [[]]
  | r :: rest =>
    ((List.range r.2).map (fun v => r.1 + v)).flatMap
      (fun v => (cross_product rest).map (fun c => v :: c))

/-- The (index, combination) pairs an uninterrupted nested loop produces. -/
def nested_loop_outputs (rs : List (Nat × Nat)) : List (Nat × List Nat) :=
  (cross_product rs).map (fun c => (pipeline_index_of rs c, c))

/-- Mixed-radix decoding: the counters the nested loop holds when `i`
combinations have already been produced (proof device). -/
def from_idx : List (Nat × Nat) → Nat → List Nat
  | [], _ => []
  | r :: rest, i => (r.1 + i / prod_sizes rest) :: from_idx rest (i % prod_sizes rest)

/-!
## CombinedImageSamplerUpdater descriptor map
(CombinedImageSamplerUpdater.cxx:114-193, the `DescriptorUpdateInfo` branch)

`FactoryCharacteristicId`, `FactoryCharacteristicKey`, `ConsecutiveRange`
and `FactoryCharacteristicData` are declared in headers outside the
available sources; they are modelled from the spec and from the comments in
the source file.
-/

/-- Modelled from the spec: `FactoryCharacteristicId` — a
(PipelineFactoryIndex, CharacteristicRangeIndex) pair, ordered first by
factory index then by characteristic-range index. -/
structure FactoryCharacteristicId where
  factory_index : Nat
  characteristic_index : Nat
deriving DecidableEq

/-- The `operator<` of `FactoryCharacteristicId`: lexicographic on
(factory index, characteristic-range index). -/
def id_lt (a b : FactoryCharacteristicId) : Bool :=
  a.factory_index < b.factory_index ||
    (a.factory_index == b.factory_index && a.characteristic_index < b.characteristic_index)

/-- Modelled from the spec: `ConsecutiveRange` — a half-open subrange
`[rbegin, rend)` of a characteristic range (`begin`/`end` in the source). -/
structure ConsecutiveRange where
  rbegin : Nat
  rend : Nat
deriving DecidableEq

/-- Modelled from the spec: `ConsecutiveRange::extend_subrange(fill_index)` —
minimally extend the subrange so that it contains `fill_index`. -/
def extend_subrange (r : ConsecutiveRange) (fill_index : Nat) : ConsecutiveRange :=
  ⟨min r.rbegin fill_index, max r.rend (fill_index + 1)⟩

/-- `FactoryCharacteristicData` for descriptors: the target
(descriptor set key, binding) pair, each modelled as a `Nat`. -/
structure FactoryCharacteristicData where
  descriptor_set : Nat
  binding : Nat
deriving DecidableEq

/-- One entry of `m_factory_characteristic_key_to_descriptor`: a
`(FactoryCharacteristicKey, FactoryCharacteristicData)` pair, the key being
an id plus a subrange. -/
structure DescriptorMapEntry where
  kid : FactoryCharacteristicId
  subrange : ConsecutiveRange
  data : FactoryCharacteristicData
deriving DecidableEq

/-- An incoming `DescriptorUpdateInfo`: its id, fill index and target.
Its `key()` is the id together with the one-element subrange
`[fill_index, fill_index + 1)` (modelled from the spec). -/
structure DescriptorUpdateInfo where
  uid : FactoryCharacteristicId
  fill_index : Nat
  descriptor_set : Nat
  binding : Nat
deriving DecidableEq

/-- The fresh entry inserted for an update ( `descriptor_update_info->key()`
paired with `{descriptor_set, binding}` ). -/
def new_descriptor_entry (u : DescriptorUpdateInfo) : DescriptorMapEntry :=
  ⟨u.uid, ⟨u.fill_index, u.fill_index + 1⟩, ⟨u.descriptor_set, u.binding⟩⟩

/-- Whether a stored entry's target equals the update's target
(`curr->second.descriptor_set().as_key() == ... && curr->second.binding() == ...`). -/
def target_matches (e : DescriptorMapEntry) (u : DescriptorUpdateInfo) : Bool :=
  e.data.descriptor_set == u.descriptor_set && e.data.binding == u.binding

/-- Extend a stored entry's subrange with the update's fill index
(`curr->first.extend_subrange(fill_index)`). -/
def extend_entry (e : DescriptorMapEntry) (u : DescriptorUpdateInfo) : DescriptorMapEntry :=
  { e with subrange := extend_subrange e.subrange u.fill_index }

/-- The descriptor-update branch of
`CombinedImageSamplerUpdater::multiplex_impl`
(CombinedImageSamplerUpdater.cxx:114-193), acting on the sorted vector
`m_factory_characteristic_key_to_descriptor`:

1. scan to the first entry whose id is not less than the update's id
   (lines 114-122);
2. if there is no entry with the update's id, insert a fresh entry there
   (lines 123-129);
3. otherwise scan forward over the entries whose `subrange().begin()` is
   not greater than the fill index, remembering the last such entry as
   `prev` and leaving `iter` at the first entry beyond (lines 146-155);
4. if `prev` exists and its target matches, extend `prev`; else if the
   entry at `iter` has a matching target, extend it; else insert a fresh
   entry before `iter` (lines 156-193).

In step 4 the source dereferences `iter` without checking for `end()`
(undefined behaviour in C++ when the scan consumed the tail); that read is
modelled as a failed match, which makes the subsequent insert-before-end an
append — the outcome the surrounding code expects. -/
def process_descriptor_update (l : List DescriptorMapEntry) (u : DescriptorUpdateInfo) :
    List DescriptorMapEntry :=
  let before := l.takeWhile (fun e => id_lt e.kid u.uid)
  let rest := l.drop before.length
  match rest with
  | [] => before ++ [new_descriptor_entry u]
  | e0 :: _ =>
    if id_lt u.uid e0.kid then
      before ++ new_descriptor_entry u :: rest
    else
      let scanned := rest.takeWhile (fun e => !(u.fill_index < e.subrange.rbegin))
      let rest2 := rest.drop scanned.length
      match scanned.getLast? with
      | some p =>
        if target_matches p u then
          before ++ scanned.dropLast ++ extend_entry p u :: rest2
        else
          match rest2 with
          | e2 :: t2 =>
            if target_matches e2 u then before ++ scanned ++ extend_entry e2 u :: t2
            else before ++ scanned ++ new_descriptor_entry u :: rest2
          | [] => before ++ scanned ++ [new_descriptor_entry u]
      | none =>
        match rest2 with
        | e2 :: t2 =>
          if target_matches e2 u then before ++ extend_entry e2 u :: t2
          else before ++ new_descriptor_entry u :: rest2
        | [] => before ++ [new_descriptor_entry u]

/-- Fold a sequence of updates over the (initially empty) descriptor map. -/
def process_descriptor_updates (us : List DescriptorUpdateInfo) : List DescriptorMapEntry :=
  us.foldl process_descriptor_update []

/-- Ordering of two adjacent stored entries required by the documented
invariant: strictly increasing id, or equal id with disjoint subranges in
increasing order. -/
def entry_ord_ok (a b : DescriptorMapEntry) : Bool :=
  id_lt a.kid b.kid || (a.kid == b.kid && a.subrange.rend ≤ b.subrange.rbegin)

/-- The documented invariant of `m_factory_characteristic_key_to_descriptor`
(CombinedImageSamplerUpdater.cxx:94-110): sorted by
(FactoryCharacteristicId, subrange begin) with non-overlapping subranges
for equal ids. -/
def descriptor_map_invariant : List DescriptorMapEntry → Bool
  | [] => true
  | [_] => true
  | a :: b :: t => entry_ord_ok a b && descriptor_map_invariant (b :: t)

/-!
## Concrete instances used by witnesses and counterexamples
-/

/-- A color image-view kind. -/
def color_kind : ImageViewKind :=
  ⟨true, false, false, false, false⟩

/-- A color attachment with id 0. -/
def attachment_a : Attachment :=
  ⟨0, color_kind⟩

/-- A color attachment with id 1. -/
def attachment_b : Attachment :=
  ⟨1, color_kind⟩

/-- A node carrying both the load and the clear flag (reachable through
`pass[~X]` followed by `pass[+X]`, neither of which checks the other flag
in RenderPass.cxx). -/
def c3_both_node : AttachmentNode :=
  { attachment := attachment_a, index := 0, is_load := true, is_clear := true }

/-- A render pass knowing only `c3_both_node`. -/
def c3_both_state : RenderPass :=
  ⟨[c3_both_node], [], 1, []⟩

/-- A sink node that neither stores nor presents (color kind). -/
def c9_sink_node : AttachmentNode :=
  { attachment := attachment_a, index := 0, is_sink := true }

/-- A render pass knowing only `c9_sink_node`. -/
def c9_sink_state : RenderPass :=
  ⟨[c9_sink_node], [], 1, []⟩

/-- A storing sink node marked present (color kind). -/
def c9_present_node : AttachmentNode :=
  { attachment := attachment_a, index := 0, is_store := true, is_sink := true, is_present := true }

/-- A render pass knowing only `c9_present_node`. -/
def c9_present_state : RenderPass :=
  ⟨[c9_present_node], [], 1, []⟩

/-- Characteristic id A = (factory 0, characteristic 0). -/
def c4_id_a : FactoryCharacteristicId := ⟨0, 0⟩

/-- Characteristic id B = (factory 0, characteristic 1); A < B. -/
def c4_id_b : FactoryCharacteristicId := ⟨0, 1⟩

/-- Characteristic id C = (factory 0, characteristic 2); B < C. -/
def c4_id_c : FactoryCharacteristicId := ⟨0, 2⟩

/-- Update 1: id A, fill index 0, target (set 0, binding 1). -/
def c4_u1 : DescriptorUpdateInfo := ⟨c4_id_a, 0, 0, 1⟩

/-- Update 2: id A, fill index 1, same target as update 1 (merges to `[0,2)`). -/
def c4_u2 : DescriptorUpdateInfo := ⟨c4_id_a, 1, 0, 1⟩

/-- Update 3: id B, fill index 3, target (set 0, binding 2). -/
def c4_u3 : DescriptorUpdateInfo := ⟨c4_id_b, 3, 0, 2⟩

/-- Update 4: id C, fill index 9, target (set 0, binding 4). -/
def c4_u4 : DescriptorUpdateInfo := ⟨c4_id_c, 9, 0, 4⟩

/-- Update 5: id A, fill index 5, fresh target (set 0, binding 3).  Its fill
index overlaps no stored subrange, yet processing it breaks the sort order
(the forward scan of CombinedImageSamplerUpdater.cxx:148-155 walks past
entries of larger ids without comparing ids). -/
def c4_u5 : DescriptorUpdateInfo := ⟨c4_id_a, 5, 0, 3⟩

/-!
## Helper lemmas
-/

/-- Updating the flags of the nodes with a given id (leaving attachments
untouched) maps through `find_by_ID`. -/
theorem find_by_ID_set (l : List AttachmentNode) (id : Nat) (f : AttachmentNode → AttachmentNode)
    (hf : ∀ m, (f m).attachment = m.attachment) :
    find_by_ID (l.map (fun n => if n.attachment.id == id then f n else n)) id =
      (find_by_ID l id).map f := by
  induction l with
  | nil => rfl
  | cons n t ih =>
    cases h : (n.attachment.id == id) with
    | true => simp [find_by_ID, h, hf n]
    | false => simpa [find_by_ID, h] using ih

/-- `find_by_ID` skips a prefix in which the id does not occur. -/
theorem find_by_ID_append (l1 l2 : List AttachmentNode) (id : Nat)
    (h : find_by_ID l1 id = none) :
    find_by_ID (l1 ++ l2) id = find_by_ID l2 id := by
  induction l1 with
  | nil => rfl
  | cons n t ih =>
    cases hh : (n.attachment.id == id) with
    | true => rw [find_by_ID, hh] at h; simp at h
    | false =>
      rw [find_by_ID, hh] at h
      simpa [find_by_ID, hh] using ih h

/-- The node handed out by a successful `get_node` is found in the resulting
state under the attachment's id. -/
theorem get_node_find (rp : RenderPass) (a : Attachment) (rp' : RenderPass) (n : AttachmentNode)
    (h : get_node rp a = .ok (rp', n)) :
    find_by_ID rp'.known_attachments a.id = some n := by
  unfold get_node at h
  cases hf : find_by_ID rp.known_attachments a.id with
  | some m =>
    rw [hf] at h
    cases h
    exact hf
  | none =>
    rw [hf] at h
    cases hr : removed_contains rp.remove_or_dontcare_attachments a.id with
    | true => rw [hr] at h; simp at h
    | false =>
      rw [hr] at h
      injection h with h1
      injection h1 with h2 h3
      subst h2
      subst h3
      simp [find_by_ID_append _ _ _ hf, find_by_ID]

/-- After a successful `get_node` followed by a flag update of the node, the
updated node is found under the attachment's id. -/
theorem set_flags_find (rp : RenderPass) (a : Attachment) (rp' : RenderPass)
    (n : AttachmentNode) (f : AttachmentNode → AttachmentNode)
    (hf : ∀ m, (f m).attachment = m.attachment)
    (h : get_node rp a = .ok (rp', n)) :
    find_by_ID (set_node_flags rp' a.id f).known_attachments a.id = some (f n) := by
  have h1 := find_by_ID_set rp'.known_attachments a.id f hf
  rw [get_node_find rp a rp' n h] at h1
  simpa [set_node_flags] using h1

/-!
## Claim C3: RenderPass::get_load_op
-/

/-- C3, counterexample.  The claim states that when both the clear flag and
the load flag are set `get_load_op` returns Clear; the source
(RenderPass.cxx:153-156) tests `is_load()` first, so it returns Load.  The
both-flags state is reachable through `pass[~X]` followed by `pass[+X]`. -/
theorem c3_clear_priority_counterexample :
    find_by_ID c3_both_state.known_attachments 0 = some c3_both_node ∧
    c3_both_node.is_load = true ∧ c3_both_node.is_clear = true ∧
    get_load_op c3_both_state 0 = .eLoad ∧
    get_load_op c3_both_state 0 ≠ .eClear ∧
    (op_load (op_clear initial_render_pass attachment_a).1 attachment_a).1 = c3_both_state := by
  decide

/-- C3, amended.  `get_load_op` returns "none" for an unknown attachment;
otherwise Load when the load flag is set (load has priority over clear, so
with both flags set it returns Load), Clear when only the clear flag is set,
and DontCare when neither is set. -/
theorem c3_load_op_cases (rp : RenderPass) (id : Nat) :
    (find_by_ID rp.known_attachments id = none → get_load_op rp id = .eNoneEXT) ∧
    (∀ n, find_by_ID rp.known_attachments id = some n →
      ((n.is_load = true → get_load_op rp id = .eLoad) ∧
       (n.is_load = false → n.is_clear = true → get_load_op rp id = .eClear) ∧
       (n.is_load = false → n.is_clear = false → get_load_op rp id = .eDontCare))) := by
  unfold get_load_op
  refine ⟨fun h => by rw [h], fun n h => ?_⟩
  rw [h]
  exact ⟨fun h1 => by simp [h1],
         fun h1 h2 => by simp [h1, h2],
         fun h1 h2 => by simp [h1, h2]⟩

/-- C3, witness: the amended theorem applied to `c3_both_state`. -/
theorem c3_witness : get_load_op c3_both_state 0 = .eLoad :=
  ((c3_load_op_cases c3_both_state 0).2 c3_both_node (by decide)).1 (by decide)

/-!
## Claim C5: RenderPass::stores_called
-/

/-- C5.  Inserting a render pass that is already registered fails with the
duplicate-render-pass alert and leaves the registered set (indeed the whole
state) unchanged; registering any sequence of pairwise-distinct, previously
unregistered render passes succeeds. -/
theorem c5_duplicate_render_pass :
    (∀ rp x, x ∈ rp.stores_called_ids →
      stores_called rp x = (rp, some .duplicateRenderPass)) ∧
    (∀ rp l, l.Nodup → (∀ y ∈ l, y ∉ rp.stores_called_ids) →
      (stores_called_all rp l).2 = true) := by
  constructor
  · intro rp x h
    simp [stores_called, h]
  · intro rp l
    induction l generalizing rp with
    | nil => intro _ _; rfl
    | cons x t ih =>
      intro hnd hmem
      have hx : x ∉ rp.stores_called_ids := hmem x (by simp)
      have step : stores_called rp x =
          ({ rp with stores_called_ids := rp.stores_called_ids ++ [x] }, none) := by
        simp [stores_called, hx]
      rw [stores_called_all, step]
      apply ih _ (List.Nodup.of_cons hnd)
      intro y hy hc
      rcases List.mem_append.1 hc with h1 | h1
      · exact hmem y (List.mem_cons_of_mem _ hy) h1
      · have hyx : y = x := by simpa using h1
        subst hyx
        exact (List.nodup_cons.1 hnd).1 hy

/-- C5, witness: a duplicate insertion fails with the state unchanged, and a
run over three distinct render passes succeeds. -/
theorem c5_witness :
    stores_called ⟨[], [], 0, [7]⟩ 7 = (⟨[], [], 0, [7]⟩, some .duplicateRenderPass) ∧
    (stores_called_all initial_render_pass [1, 2, 3]).2 = true :=
  ⟨c5_duplicate_render_pass.1 ⟨[], [], 0, [7]⟩ 7 (by decide),
   c5_duplicate_render_pass.2 initial_render_pass [1, 2, 3] (by decide) (by decide)⟩

/-!
## Claim C6: RenderPass::preceding_render_pass_stores
-/

/-- C6.  If the attachment is in the remove-or-dontcare list the call only
erases it there (the known-attachment list is unchanged, so no node and no
load flag appear); otherwise the call does not throw and afterwards the
pass's node for the attachment has the load flag set. -/
theorem c6_preceding_stores (rp : RenderPass) (a : Attachment) :
    (removed_contains rp.remove_or_dontcare_attachments a.id = true →
      preceding_render_pass_stores rp a =
        ({ rp with remove_or_dontcare_attachments :=
            erase_first_by_id rp.remove_or_dontcare_attachments a.id }, none) ∧
      (preceding_render_pass_stores rp a).1.known_attachments = rp.known_attachments) ∧
    (removed_contains rp.remove_or_dontcare_attachments a.id = false →
      (preceding_render_pass_stores rp a).2 = none ∧
      ∃ n, find_by_ID (preceding_render_pass_stores rp a).1.known_attachments a.id = some n ∧
        n.is_load = true) := by
  constructor
  · intro h
    constructor
    · simp [preceding_render_pass_stores, h]
    · simp [preceding_render_pass_stores, h]
  · intro h
    have hload : ∀ m : AttachmentNode,
        (({ m with is_load := true } : AttachmentNode)).attachment = m.attachment := fun _ => rfl
    cases hf : find_by_ID rp.known_attachments a.id with
    | some n =>
      have hg : get_node rp a = .ok (rp, n) := by
        unfold get_node; rw [hf]
      constructor
      · simp [preceding_render_pass_stores, h, hg]
      · refine ⟨{ n with is_load := true }, ?_, rfl⟩
        simp only [preceding_render_pass_stores, h, hg]
        simpa using set_flags_find rp a rp n _ hload hg
    | none =>
      have hg : get_node rp a =
          .ok ({ rp with
                  known_attachments := rp.known_attachments ++
                    [{ attachment := a, index := rp.next_index }],
                  next_index := rp.next_index + 1 },
               { attachment := a, index := rp.next_index }) := by
        unfold get_node; rw [hf]; simp [h]
      constructor
      · simp [preceding_render_pass_stores, h, hg]
      · refine ⟨{ attachment := a, index := rp.next_index, is_load := true }, ?_, rfl⟩
        simp only [preceding_render_pass_stores, h, hg]
        simpa using set_flags_find rp a _ _ _ hload hg

/-- C6, witness: consuming a pending removal, and loading from a fresh pass. -/
theorem c6_witness :
    (preceding_render_pass_stores ⟨[], [attachment_a], 0, []⟩ attachment_a).1.known_attachments = [] ∧
    (∃ n, find_by_ID
        (preceding_render_pass_stores initial_render_pass attachment_a).1.known_attachments 0 =
          some n ∧ n.is_load = true) :=
  ⟨((c6_preceding_stores ⟨[], [attachment_a], 0, []⟩ attachment_a).1 (by decide)).2,
   ((c6_preceding_stores initial_render_pass attachment_a).2 (by decide)).2⟩

/-!
## Claim C7: RenderPass::store_attachment
-/

/-- C7.  `stores(~X)` (the `OpClear` overload) leaves the node for X with
both the clear and the store flag set; the plain `stores(X)` overload on an
attachment whose node already has the clear flag fails with the
already-specified-as-input alert and changes nothing (in particular the
store flag is not set). -/
theorem c7_store_clear_flags (rp : RenderPass) (a : Attachment) :
    (∀ rp', store_attachment_clear rp a = (rp', none) →
      ∃ n, find_by_ID rp'.known_attachments a.id = some n ∧
        n.is_clear = true ∧ n.is_store = true) ∧
    (∀ n, find_by_ID rp.known_attachments a.id = some n → n.is_clear = true →
      store_attachment rp a = (rp, some .alreadySpecifiedAsInput)) := by
  constructor
  · intro rp' h
    unfold store_attachment_clear at h
    cases hg : get_node rp a with
    | error al => rw [hg] at h; simp at h
    | ok pr =>
      obtain ⟨rpm, n⟩ := pr
      rw [hg] at h
      simp only [Prod.mk.injEq] at h
      refine ⟨{ n with is_store := true, is_clear := true }, ?_, rfl, rfl⟩
      rw [← h.1]
      exact set_flags_find rp a rpm n _ (fun _ => rfl) hg
  · intro n hf hc
    have hg : get_node rp a = .ok (rp, n) := by
      unfold get_node; rw [hf]
    simp [store_attachment, hg, hc]

/-- C7, witness: `stores(~X)` on a fresh pass, and `stores(X)` after the
clear flag was set. -/
theorem c7_witness :
    (∃ n, find_by_ID (store_attachment_clear initial_render_pass attachment_a).1.known_attachments 0 =
        some n ∧ n.is_clear = true ∧ n.is_store = true) ∧
    store_attachment c3_both_state attachment_a = (c3_both_state, some .alreadySpecifiedAsInput) :=
  ⟨(c7_store_clear_flags initial_render_pass attachment_a).1
      (store_attachment_clear initial_render_pass attachment_a).1 (by decide),
   (c7_store_clear_flags c3_both_state attachment_a).2 c3_both_node (by decide) (by decide)⟩

/-!
## Claim C8: removing twice / adding after removal
-/

/-- C8.  Removing an attachment that is already in the remove-or-dontcare
list fails with an alert and leaves the state (in particular the
known-attachment list) unchanged; adding a removed, unknown attachment via
load, clear or either store overload (all of which go through `get_node`)
fails with the add-after-remove alert and also leaves the state unchanged. -/
theorem c8_remove_add_errors (rp : RenderPass) (a : Attachment) :
    removed_contains rp.remove_or_dontcare_attachments a.id = true →
      ((∃ al, op_remove rp a = (rp, some al)) ∧
       (find_by_ID rp.known_attachments a.id = none →
         op_load rp a = (rp, some .addAfterRemove) ∧
         op_clear rp a = (rp, some .addAfterRemove) ∧
         store_attachment rp a = (rp, some .addAfterRemove) ∧
         store_attachment_clear rp a = (rp, some .addAfterRemove))) := by
  intro hrem
  constructor
  · cases h : (find_by_ID rp.known_attachments a.id).isSome with
    | true => exact ⟨.removeAfterAdd, by simp [op_remove, h]⟩
    | false => exact ⟨.removeTwice, by simp [op_remove, h, hrem]⟩
  · intro hfind
    have hg : get_node rp a = .error .addAfterRemove := by
      unfold get_node; rw [hfind]; simp [hrem]
    exact ⟨by simp [op_load, hg], by simp [op_clear, hg],
           by simp [store_attachment, hg], by simp [store_attachment_clear, hg]⟩

/-- C8, witness: a pass with attachment A removed rejects a second removal
and all four add operations. -/
theorem c8_witness :
    (∃ al, op_remove ⟨[], [attachment_a], 0, []⟩ attachment_a =
      (⟨[], [attachment_a], 0, []⟩, some al)) ∧
    op_load ⟨[], [attachment_a], 0, []⟩ attachment_a =
      (⟨[], [attachment_a], 0, []⟩, some .addAfterRemove) :=
  ⟨(c8_remove_add_errors ⟨[], [attachment_a], 0, []⟩ attachment_a (by decide)).1,
   ((c8_remove_add_errors ⟨[], [attachment_a], 0, []⟩ attachment_a (by decide)).2 (by decide)).1⟩

/-!
## Claim C9: RenderPass::get_final_layout
-/

/-- C9, counterexample.  The claim calls the non-present sink that does
*not* store the logic-error case; in the source
(RenderPass.cxx:226-227) such a node takes the `!is_store()` branch and
receives its optimal layout, without reaching the `ASSERT(false)`. -/
theorem c9_final_layout_counterexample :
    c9_sink_node.is_sink = true ∧ c9_sink_node.is_store = false ∧
    c9_sink_node.is_present = false ∧
    get_final_layout c9_sink_state 0 true = .layout .eColorAttachmentOptimal ∧
    get_final_layout c9_sink_state 0 true ≠ .logicError := by
  decide

/-- C9, amended.  `get_final_layout` returns Undefined for an unknown
attachment; a known node that is not a storing sink receives its optimal
layout; a storing sink yields PresentSrcKHR exactly when marked present;
and the logic-error (`ASSERT(false)`) case is the *storing*, non-present
sink. -/
theorem c9_final_layout_cases (rp : RenderPass) (id : Nat) (sep : Bool) :
    (find_by_ID rp.known_attachments id = none →
      get_final_layout rp id sep = .layout .eUndefined) ∧
    (∀ n, find_by_ID rp.known_attachments id = some n →
      ((n.is_sink = false ∨ n.is_store = false →
          get_final_layout rp id sep = get_optimal_layout n sep) ∧
       (n.is_sink = true → n.is_store = true →
          (get_final_layout rp id sep = .layout .ePresentSrcKHR ↔ n.is_present = true)) ∧
       (n.is_sink = true → n.is_store = true → n.is_present = false →
          get_final_layout rp id sep = .logicError))) := by
  unfold get_final_layout
  refine ⟨fun h => by rw [h], fun n h => ?_⟩
  rw [h]
  refine ⟨?_, ?_, ?_⟩
  · rintro (h1 | h1) <;> simp [h1]
  · intro h1 h2
    cases hp : n.is_present with
    | true => simp [h1, h2, hp]
    | false => simp [h1, h2, hp]
  · intro h1 h2 h3
    simp [h1, h2, h3]

/-- C9, witness: the amended theorem applied to a present storing sink. -/
theorem c9_witness : get_final_layout c9_present_state 0 true = .layout .ePresentSrcKHR :=
  ((((c9_final_layout_cases c9_present_state 0 true).2 c9_present_node (by decide)).2.1
      (by decide) (by decide))).2 (by decide)

/-!
## Claim C10: get_node as create-or-fetch, and the index invariant
-/

/-- A fresh render pass satisfies the index invariant. -/
theorem rp_invariant_initial : rp_invariant initial_render_pass :=
  ⟨rfl, rfl⟩

/-- `get_node` preserves the index invariant. -/
theorem rp_invariant_get_node (rp : RenderPass) (a : Attachment) (h : rp_invariant rp) :
    ∀ rp' n, get_node rp a = .ok (rp', n) → rp_invariant rp' := by
  intro rp' n hg
  unfold get_node at hg
  cases hf : find_by_ID rp.known_attachments a.id with
  | some m =>
    rw [hf] at hg
    injection hg with h1
    injection h1 with h2 h3
    subst h2
    exact h
  | none =>
    rw [hf] at hg
    cases hr : removed_contains rp.remove_or_dontcare_attachments a.id with
    | true => rw [hr] at hg; simp at hg
    | false =>
      rw [hr] at hg
      injection hg with h1
      injection h1 with h2 h3
      subst h2
      constructor
      · simp [h.1, h.2, List.range_succ]
      · simp [h.2]

/-- `set_node_flags` with an index-preserving update preserves the index
invariant. -/
theorem rp_invariant_set_flags (rp : RenderPass) (id : Nat)
    (f : AttachmentNode → AttachmentNode) (hf : ∀ m, (f m).index = m.index)
    (h : rp_invariant rp) : rp_invariant (set_node_flags rp id f) := by
  have hmap : (rp.known_attachments.map
        (fun n => if n.attachment.id == id then f n else n)).map AttachmentNode.index =
      rp.known_attachments.map AttachmentNode.index := by
    rw [List.map_map]
    apply List.map_congr_left
    intro m _
    show (if m.attachment.id == id then f m else m).index = m.index
    split
    · exact hf m
    · rfl
  constructor
  · show (rp.known_attachments.map
        (fun n => if n.attachment.id == id then f n else n)).map AttachmentNode.index = _
    rw [hmap, h.1]
    simp [set_node_flags]
  · show rp.next_index = _
    rw [h.2]
    simp [set_node_flags]

/-- The fold inside `do_load_dont_cares` preserves the index invariant. -/
theorem rp_invariant_dont_cares_fold (l : List Attachment) :
    ∀ s : RenderPass, rp_invariant s →
      rp_invariant (l.foldl
        (fun s a => match get_node s a with
          | .ok (s', _) => s'
          | .error _ => s) s) := by
  induction l with
  | nil => intro s hs; exact hs
  | cons a t ih =>
    intro s hs
    rw [List.foldl_cons]
    cases hg : get_node s a with
    | error al => exact ih s (by simpa [hg] using hs)
    | ok pr => exact ih pr.1 (by simpa [hg] using rp_invariant_get_node s a hs pr.1 pr.2 (by rw [hg]))

/-- Every modelled RenderPass operation preserves the index invariant. -/
theorem rp_invariant_apply_op (rp : RenderPass) (op : RPOp) (h : rp_invariant rp) :
    rp_invariant (apply_op rp op) := by
  cases op with
  | load a =>
    show rp_invariant (op_load rp a).1
    cases hg : get_node rp a with
    | error al => simp only [op_load, hg]; exact h
    | ok pr =>
      obtain ⟨rp', n⟩ := pr
      simp only [op_load, hg]
      exact rp_invariant_set_flags _ _ _ (fun _ => rfl)
        (rp_invariant_get_node rp a h rp' n hg)
  | clear a =>
    show rp_invariant (op_clear rp a).1
    cases hg : get_node rp a with
    | error al => simp only [op_clear, hg]; exact h
    | ok pr =>
      obtain ⟨rp', n⟩ := pr
      simp only [op_clear, hg]
      exact rp_invariant_set_flags _ _ _ (fun _ => rfl)
        (rp_invariant_get_node rp a h rp' n hg)
  | plainStore a =>
    show rp_invariant (store_attachment rp a).1
    cases hg : get_node rp a with
    | error al => simp only [store_attachment, hg]; exact h
    | ok pr =>
      obtain ⟨rp', n⟩ := pr
      have hinv := rp_invariant_get_node rp a h rp' n hg
      simp only [store_attachment, hg]
      cases hc : n.is_clear with
      | true => simpa using hinv
      | false => exact rp_invariant_set_flags _ _ _ (fun _ => rfl) hinv
  | clearStore a =>
    show rp_invariant (store_attachment_clear rp a).1
    cases hg : get_node rp a with
    | error al => simp only [store_attachment_clear, hg]; exact h
    | ok pr =>
      obtain ⟨rp', n⟩ := pr
      simp only [store_attachment_clear, hg]
      exact rp_invariant_set_flags _ _ _ (fun _ => rfl)
        (rp_invariant_get_node rp a h rp' n hg)
  | remove a =>
    show rp_invariant (op_remove rp a).1
    by_cases h1 : (find_by_ID rp.known_attachments a.id).isSome = true
    · simpa [op_remove, h1] using h
    · cases h2 : removed_contains rp.remove_or_dontcare_attachments a.id with
      | true => simpa [op_remove, h1, h2] using h
      | false => simpa [op_remove, h1, h2] using And.intro h.1 h.2
  | dontCares =>
    show rp_invariant (do_load_dont_cares rp)
    exact rp_invariant_dont_cares_fold _ _ ⟨h.1, h.2⟩
  | precStores a =>
    show rp_invariant (preceding_render_pass_stores rp a).1
    cases h1 : removed_contains rp.remove_or_dontcare_attachments a.id with
    | true => simpa [preceding_render_pass_stores, h1] using And.intro h.1 h.2
    | false =>
      simp only [preceding_render_pass_stores, h1]
      cases hg : get_node rp a with
      | error al => simp only [hg]; simpa using h
      | ok pr =>
        obtain ⟨rp', n⟩ := pr
        simp only [hg]
        exact rp_invariant_set_flags _ _ _ (fun _ => rfl)
          (rp_invariant_get_node rp a h rp' n hg)
  | storesCalled i =>
    show rp_invariant (stores_called rp i).1
    by_cases h1 : i ∈ rp.stores_called_ids
    · simpa [stores_called, h1] using h
    · simpa [stores_called, h1] using And.intro h.1 h.2

/-- The index invariant holds in every state reachable from a fresh pass. -/
theorem rp_invariant_run (ops : List RPOp) : rp_invariant (run_ops ops) := by
  have haux : ∀ l : List RPOp, ∀ s : RenderPass, rp_invariant s →
      rp_invariant (l.foldl apply_op s) := by
    intro l
    induction l with
    | nil => intro s hs; exact hs
    | cons op t ih =>
      intro s hs
      rw [List.foldl_cons]
      exact ih _ (rp_invariant_apply_op s op hs)
  exact haux ops initial_render_pass rp_invariant_initial

/-- C10.  In every state reachable from a fresh RenderPass the known
attachments carry the indices `0, ..., n-1` in order of first reference;
and under that invariant `get_node` is create-or-fetch: a known attachment
is returned as-is with the state untouched, while an unknown, unremoved
attachment is appended as a fresh node whose index is the number of
attachments already known. -/
theorem c10_get_node_create_or_fetch :
    (∀ ops : List RPOp, rp_invariant (run_ops ops)) ∧
    (∀ rp a, rp_invariant rp →
      ((∀ n, find_by_ID rp.known_attachments a.id = some n → get_node rp a = .ok (rp, n)) ∧
       (find_by_ID rp.known_attachments a.id = none →
        removed_contains rp.remove_or_dontcare_attachments a.id = false →
        get_node rp a =
          .ok ({ rp with
                  known_attachments := rp.known_attachments ++
                    [{ attachment := a, index := rp.known_attachments.length }],
                  next_index := rp.known_attachments.length + 1 },
               { attachment := a, index := rp.known_attachments.length })))) := by
  constructor
  · exact rp_invariant_run
  · intro rp a h
    constructor
    · intro n hf
      unfold get_node
      rw [hf]
    · intro hf hrem
      unfold get_node
      rw [hf]
      simp [hrem, h.2]

/-- C10, witness: the invariant after two operations, and both branches of
the create-or-fetch dichotomy at concrete states. -/
theorem c10_witness :
    rp_invariant (run_ops [.clear attachment_a, .load attachment_b]) ∧
    get_node c3_both_state attachment_a = .ok (c3_both_state, c3_both_node) ∧
    get_node initial_render_pass attachment_a =
      .ok (⟨[{ attachment := attachment_a, index := 0 }], [], 1, []⟩,
           { attachment := attachment_a, index := 0 }) := by
  refine ⟨c10_get_node_create_or_fetch.1 _, ?_, ?_⟩
  · exact (c10_get_node_create_or_fetch.2 c3_both_state attachment_a
      ⟨by decide, by decide⟩).1 c3_both_node (by decide)
  · exact (c10_get_node_create_or_fetch.2 initial_render_pass attachment_a
      ⟨by decide, by decide⟩).2 (by decide) (by decide)

/-!
## PipelineFactory lemmas (claims C1 and C2)
-/

/-- Unfolding of `prod_sizes` on a cons. -/
theorem prod_sizes_cons (r : Nat × Nat) (t : List (Nat × Nat)) :
    prod_sizes (r :: t) = r.2 * prod_sizes t := rfl

/-- The combination count is positive when every range is non-empty. -/
theorem prod_sizes_pos (rs : List (Nat × Nat)) (h : ∀ r ∈ rs, 0 < r.2) :
    0 < prod_sizes rs := by
  induction rs with
  | nil => exact Nat.one_pos
  | cons r t ih =>
    have : 0 < r.2 * prod_sizes t :=
      Nat.mul_pos (h r (by simp)) (ih fun x hx => h x (by simp [hx]))
    simpa [prod_sizes] using this

/-- Decoding index 0 gives the initial counters. -/
theorem from_idx_zero (rs : List (Nat × Nat)) : from_idx rs 0 = ml_begins rs := by
  induction rs with
  | nil => rfl
  | cons r t ih => simp [from_idx, ml_begins, Nat.zero_div, Nat.zero_mod, ih]

/-- Folding `characteristic_update` over the counters decoded from `i`
recovers `acc * N + i`. -/
theorem pipeline_index_aux (rs : List (Nat × Nat)) (h : ∀ r ∈ rs, 0 < r.2) :
    ∀ i acc, i < prod_sizes rs →
      (rs.zip (from_idx rs i)).foldl (fun pi rc => characteristic_update rc.1 pi rc.2) acc =
        acc * prod_sizes rs + i := by
  induction rs with
  | nil =>
    intro i acc hi
    have hz : i = 0 := Nat.lt_one_iff.1 hi
    subst hz
    simp [from_idx, prod_sizes]
  | cons r t ih =>
    intro i acc hi
    have ht : ∀ x ∈ t, 0 < x.2 := fun x hx => h x (by simp [hx])
    have hP : 0 < prod_sizes t := prod_sizes_pos t ht
    have hmod : i % prod_sizes t < prod_sizes t := Nat.mod_lt i hP
    have hdm := Nat.div_add_mod i (prod_sizes t)
    show ((r, r.1 + i / prod_sizes t) :: t.zip (from_idx t (i % prod_sizes t))).foldl
        (fun pi rc => characteristic_update rc.1 pi rc.2) acc = acc * (r.2 * prod_sizes t) + i
    rw [List.foldl_cons, ih ht _ _ hmod]
    show (acc * r.2 + (r.1 + i / prod_sizes t - r.1)) * prod_sizes t + i % prod_sizes t =
      acc * (r.2 * prod_sizes t) + i
    rw [Nat.add_sub_cancel_left]
    have e1 : (acc * r.2 + i / prod_sizes t) * prod_sizes t + i % prod_sizes t =
        acc * (r.2 * prod_sizes t) + (prod_sizes t * (i / prod_sizes t) + i % prod_sizes t) := by
      ring
    rw [e1, hdm]

/-- The pipeline index of the counters decoded from `i` is `i`. -/
theorem pipeline_index_from_idx (rs : List (Nat × Nat)) (h : ∀ r ∈ rs, 0 < r.2)
    (i : Nat) (hi : i < prod_sizes rs) : pipeline_index_of rs (from_idx rs i) = i := by
  unfold pipeline_index_of
  rw [pipeline_index_aux rs h i 0 hi, Nat.zero_mul, Nat.zero_add]

/-- Advancing the counters decoded from `i` yields the counters decoded from
`i + 1`, or finishes after the last combination. -/
theorem ml_advance_from_idx (rs : List (Nat × Nat)) (h : ∀ r ∈ rs, 0 < r.2) :
    ∀ i, i < prod_sizes rs →
      ml_advance rs (from_idx rs i) =
        if i + 1 < prod_sizes rs then some (from_idx rs (i + 1)) else none := by
  induction rs with
  | nil =>
    intro i hi
    have hz : i = 0 := Nat.lt_one_iff.1 hi
    subst hz
    simp [ml_advance, from_idx, prod_sizes]
  | cons r t ih =>
    intro i hi
    have ht : ∀ x ∈ t, 0 < x.2 := fun x hx => h x (by simp [hx])
    have hP : 0 < prod_sizes t := prod_sizes_pos t ht
    have hn : 0 < r.2 := h r (by simp)
    have hmod : i % prod_sizes t < prod_sizes t := Nat.mod_lt i hP
    have hdm := Nat.div_add_mod i (prod_sizes t)
    have hiN : i < r.2 * prod_sizes t := hi
    have hdiv : i / prod_sizes t < r.2 := by
      rw [Nat.div_lt_iff_lt_mul hP]
      exact hiN
    show (match ml_advance t (from_idx t (i % prod_sizes t)) with
      | some cs' => some ((r.1 + i / prod_sizes t) :: cs')
      | none => if r.1 + i / prod_sizes t + 1 < r.1 + r.2 then
          some ((r.1 + i / prod_sizes t + 1) :: ml_begins t) else none) =
      if i + 1 < prod_sizes (r :: t) then some (from_idx (r :: t) (i + 1)) else none
    rw [prod_sizes_cons, ih ht _ hmod]
    by_cases h1 : i % prod_sizes t + 1 < prod_sizes t
    · rw [if_pos h1]
      have e0 : i + 1 = (prod_sizes t * (i / prod_sizes t) + i % prod_sizes t) + 1 := by
        rw [hdm]
      have e1 : i + 1 = (i % prod_sizes t + 1) + i / prod_sizes t * prod_sizes t := by
        rw [e0]; ring
      have ediv : (i + 1) / prod_sizes t = i / prod_sizes t := by
        rw [e1, Nat.add_mul_div_right _ _ hP, Nat.div_eq_of_lt h1, Nat.zero_add]
      have emod : (i + 1) % prod_sizes t = i % prod_sizes t + 1 := by
        rw [e1, Nat.add_mul_mod_self_right]
        exact Nat.mod_eq_of_lt h1
      have hip : i + 1 < r.2 * prod_sizes t := by
        have e2 : i + 1 = prod_sizes t * (i / prod_sizes t) + (i % prod_sizes t + 1) := by
          rw [e0]; ring
        have e3 : i + 1 < prod_sizes t * (i / prod_sizes t) + prod_sizes t := by
          rw [e2]; exact Nat.add_lt_add_left h1 _
        have e4 : prod_sizes t * (i / prod_sizes t) + prod_sizes t =
            prod_sizes t * (i / prod_sizes t + 1) := by ring
        have e5 : prod_sizes t * (i / prod_sizes t + 1) ≤ prod_sizes t * r.2 :=
          Nat.mul_le_mul (Nat.le_refl _) (Nat.succ_le_of_lt hdiv)
        have e6 : i + 1 < prod_sizes t * r.2 := by
          rw [e4] at e3
          exact Nat.lt_of_lt_of_le e3 e5
        rw [Nat.mul_comm]
        exact e6
      rw [if_pos hip]
      show some ((r.1 + i / prod_sizes t) :: from_idx t (i % prod_sizes t + 1)) =
        some ((r.1 + (i + 1) / prod_sizes t) :: from_idx t ((i + 1) % prod_sizes t))
      rw [ediv, emod]
    · rw [if_neg h1]
      have hPe : i % prod_sizes t + 1 = prod_sizes t :=
        Nat.le_antisymm (Nat.succ_le_of_lt hmod) (Nat.not_lt.1 h1)
      have e5 : i + 1 = prod_sizes t * (i / prod_sizes t + 1) := by
        have e0 : i + 1 = prod_sizes t * (i / prod_sizes t) + (i % prod_sizes t + 1) := by
          rw [← Nat.add_assoc, hdm]
        rw [e0, hPe]; ring
      by_cases h2 : i / prod_sizes t + 1 < r.2
      · have hlt : r.1 + i / prod_sizes t + 1 < r.1 + r.2 := by
          rw [Nat.add_assoc]
          exact Nat.add_lt_add_left h2 r.1
        rw [if_pos hlt]
        have hip : i + 1 < r.2 * prod_sizes t := by
          rw [e5, Nat.mul_comm r.2 (prod_sizes t)]
          exact mul_lt_mul_of_pos_left h2 hP
        rw [if_pos hip]
        have ediv : (i + 1) / prod_sizes t = i / prod_sizes t + 1 := by
          rw [e5, Nat.mul_div_cancel_left _ hP]
        have emod : (i + 1) % prod_sizes t = 0 := by
          rw [e5, Nat.mul_mod_right]
        show some ((r.1 + i / prod_sizes t + 1) :: ml_begins t) =
          some ((r.1 + (i + 1) / prod_sizes t) :: from_idx t ((i + 1) % prod_sizes t))
        rw [ediv, emod, from_idx_zero, Nat.add_assoc]
      · have h2' : i / prod_sizes t + 1 = r.2 :=
          Nat.le_antisymm (Nat.succ_le_of_lt hdiv) (Nat.not_lt.1 h2)
        have hge : ¬(r.1 + i / prod_sizes t + 1 < r.1 + r.2) := by
          rw [Nat.add_assoc, h2']
          exact Nat.lt_irrefl _
        rw [if_neg hge]
        have hip : ¬(i + 1 < r.2 * prod_sizes t) := by
          rw [e5, h2', Nat.mul_comm]
          exact Nat.lt_irrefl _
        rw [if_neg hip]

/-- Running the yielding generator from the counters decoded from `i`, with
one resume per remaining combination, emits exactly the remaining indexed
combinations. -/
theorem generate_run_eq (rs : List (Nat × Nat)) (h : ∀ r ∈ rs, 0 < r.2) :
    ∀ m i, i + m = prod_sizes rs →
      generate_run rs (from_idx rs i) m =
        (List.range' i m).map (fun j => (j, from_idx rs j)) := by
  intro m
  induction m with
  | zero => intro i _; rfl
  | succ k ih =>
    intro i hi
    have hiN : i < prod_sizes rs := by omega
    show (pipeline_index_of rs (from_idx rs i), from_idx rs i) ::
        (match ml_advance rs (from_idx rs i) with
          | none => []
          | some c' => generate_run rs c' k) = _
    rw [pipeline_index_from_idx rs h i hiN, ml_advance_from_idx rs h i hiN]
    by_cases h1 : i + 1 < prod_sizes rs
    · rw [if_pos h1]
      show (i, from_idx rs i) :: generate_run rs (from_idx rs (i + 1)) k = _
      rw [ih (i + 1) (by omega), List.range'_succ]
      rfl
    · have hk : k = 0 := by omega
      subst hk
      rw [if_neg h1]
      rfl

/-- The completed yielding run enumerates all `N` indexed combinations. -/
theorem generate_run_spec (rs : List (Nat × Nat)) (h : ∀ r ∈ rs, 0 < r.2) :
    generate_run rs (ml_begins rs) (prod_sizes rs) =
      (List.range (prod_sizes rs)).map (fun j => (j, from_idx rs j)) := by
  rw [← from_idx_zero, generate_run_eq rs h (prod_sizes rs) 0 (by omega),
    List.range_eq_range']

/-- `range (n * P)` splits as the nested enumeration `v * P + j`. -/
theorem range_mul_flatMap (n P : Nat) :
    List.range (n * P) =
      (List.range n).flatMap (fun v => (List.range P).map (fun j => v * P + j)) := by
  induction n with
  | zero => simp
  | succ k ih =>
    rw [Nat.succ_mul, List.range_add, List.range_succ, List.flatMap_append, ih]
    simp

/-- The nested-loop cross product is the decoded enumeration of `[0, N)`. -/
theorem cross_product_eq (rs : List (Nat × Nat)) (h : ∀ r ∈ rs, 0 < r.2) :
    cross_product rs = (List.range (prod_sizes rs)).map (from_idx rs) := by
  induction rs with
  | nil => rfl
  | cons r t ih =>
    have ht : ∀ x ∈ t, 0 < x.2 := fun x hx => h x (by simp [hx])
    have hP : 0 < prod_sizes t := prod_sizes_pos t ht
    show ((List.range r.2).map (fun v => r.1 + v)).flatMap
        (fun v => (cross_product t).map (fun c => v :: c)) =
      (List.range (r.2 * prod_sizes t)).map (from_idx (r :: t))
    rw [ih ht, List.flatMap_map, range_mul_flatMap r.2 (prod_sizes t), List.map_flatMap]
    apply List.flatMap_congr
    intro v hv
    rw [List.map_map, List.map_map]
    apply List.map_congr_left
    intro j hj
    have hjP : j < prod_sizes t := List.mem_range.1 hj
    have e1 : v * prod_sizes t + j = j + v * prod_sizes t := Nat.add_comm _ _
    have ediv : (v * prod_sizes t + j) / prod_sizes t = v := by
      rw [e1, Nat.add_mul_div_right _ _ hP, Nat.div_eq_of_lt hjP, Nat.zero_add]
    have emod : (v * prod_sizes t + j) % prod_sizes t = j := by
      rw [e1, Nat.add_mul_mod_self_right]
      exact Nat.mod_eq_of_lt hjP
    show (r.1 + v) :: from_idx t j = (r.1 + (v * prod_sizes t + j) / prod_sizes t) ::
      from_idx t ((v * prod_sizes t + j) % prod_sizes t)
    rw [ediv, emod]

/-- The uninterrupted reference outputs are the indexed decoded enumeration. -/
theorem nested_outputs_spec (rs : List (Nat × Nat)) (h : ∀ r ∈ rs, 0 < r.2) :
    nested_loop_outputs rs =
      (List.range (prod_sizes rs)).map (fun j => (j, from_idx rs j)) := by
  unfold nested_loop_outputs
  rw [cross_product_eq rs h, List.map_map]
  apply List.map_congr_left
  intro j hj
  have hjN : j < prod_sizes rs := List.mem_range.1 hj
  show (pipeline_index_of rs (from_idx rs j), from_idx rs j) = _
  rw [pipeline_index_from_idx rs h j hjN]

/-- The initialized-state fold of `update` over every characteristic's last
position computes `N - 1`. -/
theorem max_pipeline_index_aux (rs : List (Nat × Nat)) (h : ∀ r ∈ rs, 0 < r.2) :
    ∀ acc, rs.foldl (fun pi r => characteristic_update r pi (r.1 + r.2 - 1)) acc =
      acc * prod_sizes rs + (prod_sizes rs - 1) := by
  induction rs with
  | nil => intro acc; simp [prod_sizes]
  | cons r t ih =>
    intro acc
    have ht : ∀ x ∈ t, 0 < x.2 := fun x hx => h x (by simp [hx])
    have hn : 0 < r.2 := h r (by simp)
    have hP : 0 < prod_sizes t := prod_sizes_pos t ht
    rw [List.foldl_cons, ih ht]
    show characteristic_update r acc (r.1 + r.2 - 1) * prod_sizes t + (prod_sizes t - 1) =
      acc * (r.2 * prod_sizes t) + (r.2 * prod_sizes t - 1)
    unfold characteristic_update
    have e1 : r.1 + r.2 - 1 - r.1 = r.2 - 1 := by omega
    rw [e1]
    obtain ⟨n', hn'⟩ : ∃ n', r.2 = n' + 1 := ⟨r.2 - 1, by omega⟩
    obtain ⟨P', hP'⟩ : ∃ P', prod_sizes t = P' + 1 := ⟨prod_sizes t - 1, by omega⟩
    rw [hn', hP']
    have e2 : (n' + 1) * (P' + 1) - 1 = n' * P' + n' + P' := by
      have e3 : (n' + 1) * (P' + 1) = n' * P' + n' + P' + 1 := by ring
      omega
    rw [e2]
    have e4 : n' + 1 - 1 = n' := by omega
    have e5 : P' + 1 - 1 = P' := by omega
    rw [e4, e5]
    ring

/-- The maximum pipeline index computed by the initialized state. -/
theorem max_pipeline_index_eq (rs : List (Nat × Nat)) (h : ∀ r ∈ rs, 0 < r.2) :
    max_pipeline_index rs = prod_sizes rs - 1 := by
  unfold max_pipeline_index
  rw [max_pipeline_index_aux rs h 0, Nat.zero_mul, Nat.zero_add]

/-!
## Claim C1: pipeline count, index coverage, and the presizing bound
-/

/-- C1.  For non-empty characteristic ranges of sizes `n1, ..., nk` the
completed generate state emits pipeline indices that are exactly
`0, 1, ..., n1*...*nk - 1` (each produced exactly once), the number of
created pipelines is `n1*...*nk`, and the maximum index computed by the
initialized state (used to presize `m_graphics_pipelines`) is
`n1*...*nk - 1`. -/
theorem c1_pipeline_count_and_max (rs : List (Nat × Nat)) (_hne : rs ≠ [])
    (hpos : ∀ r ∈ rs, 0 < r.2) :
    (generate_run rs (ml_begins rs) (prod_sizes rs)).map Prod.fst =
      List.range (prod_sizes rs) ∧
    (generate_run rs (ml_begins rs) (prod_sizes rs)).length = prod_sizes rs ∧
    max_pipeline_index rs = prod_sizes rs - 1 := by
  refine ⟨?_, ?_, max_pipeline_index_eq rs hpos⟩
  · rw [generate_run_spec rs hpos, List.map_map]
    have hpt : ∀ j ∈ List.range (prod_sizes rs),
        (Prod.fst ∘ fun j => (j, from_idx rs j)) j = j := fun j _ => rfl
    rw [List.map_congr_left hpt, List.map_id']
  · rw [generate_run_spec rs hpos, List.length_map, List.length_range]

/-- C1, witness: the spec's example — 3 shader variants by 2 blend modes
give 6 pipelines with indices `0..5` and presizing bound 5. -/
theorem c1_witness :
    (generate_run [(0, 3), (0, 2)] (ml_begins [(0, 3), (0, 2)])
        (prod_sizes [(0, 3), (0, 2)])).map Prod.fst = List.range 6 ∧
    max_pipeline_index [(0, 3), (0, 2)] = 5 := by
  have h := c1_pipeline_count_and_max [(0, 3), (0, 2)] (by decide) (by decide)
  exact ⟨h.1, h.2.2⟩

/-!
## Claim C2: yield/resume equivalence with the uninterrupted nested loop
-/

/-- C2.  The generate state, which after every produced pipeline yields and
is re-entered at the persisted MultiLoop counter position, emits — over the
whole run — exactly the (index, combination) sequence of the uninterrupted
nested loop over the same characteristic ranges. -/
theorem c2_yield_resume_equivalence (rs : List (Nat × Nat))
    (hpos : ∀ r ∈ rs, 0 < r.2) :
    generate_run rs (ml_begins rs) (prod_sizes rs) = nested_loop_outputs rs := by
  rw [generate_run_spec rs hpos, nested_outputs_spec rs hpos]

/-- C2, witness: the equivalence at the spec's 3-by-2 example. -/
theorem c2_witness :
    generate_run [(0, 3), (0, 2)] (ml_begins [(0, 3), (0, 2)])
        (prod_sizes [(0, 3), (0, 2)]) = nested_loop_outputs [(0, 3), (0, 2)] :=
  c2_yield_resume_equivalence [(0, 3), (0, 2)] (by decide)

/-!
## Claim C4: the descriptor-map insertion breaks its sort invariant
-/

/-- C4.  Starting from the empty map, four legal updates (merging `[0,1)`
and `[1,2)` for id A, then fresh entries for ids B and C) produce a map
satisfying the documented sort invariant; the fifth update — id A, fill
index 5, a fresh target, overlapping nothing — is then inserted *after* the
id-B entry, because the forward scan (CombinedImageSamplerUpdater.cxx:
148-155) compares only subrange begins and walks past entries of larger
ids.  The resulting map is no longer sorted by (id, subrange begin), so the
insertion violates the invariant both the spec and the source's own
comments state. -/
theorem c4_descriptor_map_sort_bug :
    descriptor_map_invariant (process_descriptor_updates [c4_u1, c4_u2, c4_u3, c4_u4]) = true ∧
    process_descriptor_updates [c4_u1, c4_u2, c4_u3, c4_u4] =
      [⟨c4_id_a, ⟨0, 2⟩, ⟨0, 1⟩⟩, ⟨c4_id_b, ⟨3, 4⟩, ⟨0, 2⟩⟩, ⟨c4_id_c, ⟨9, 10⟩, ⟨0, 4⟩⟩] ∧
    process_descriptor_updates [c4_u1, c4_u2, c4_u3, c4_u4, c4_u5] =
      [⟨c4_id_a, ⟨0, 2⟩, ⟨0, 1⟩⟩, ⟨c4_id_b, ⟨3, 4⟩, ⟨0, 2⟩⟩,
       ⟨c4_id_a, ⟨5, 6⟩, ⟨0, 3⟩⟩, ⟨c4_id_c, ⟨9, 10⟩, ⟨0, 4⟩⟩] ∧
    descriptor_map_invariant
      (process_descriptor_updates [c4_u1, c4_u2, c4_u3, c4_u4, c4_u5]) = false := by
  decide

end LinuxViewer
